import Mathlib

/-!
Shallow embedding of the UNO "No Mercy" turn engine (uno.py).

The Python source is single-threaded and mutates objects in place; the
embedding passes state explicitly.  The two sources of randomness
(`random.shuffle` in `Deck._build` / `Deck._reshuffle_from_discard`) are
modelled by an explicit parameter `sh : List Card → List Card`; theorems that
depend on shuffling quantify over every `sh` that permutes its input, which
covers every possible random outcome.  Deques are modelled as lists with the
front at the head (`popleft` = head, `appendleft` = cons, `extend` = append
at the tail).
-/

/-- Enumeration mirroring class `Color` (uno.py lines 7-14).  `WILD` is the
nominal stored color of wild cards. -/
inductive Color where
  | RED
  | YELLOW
  | GREEN
  | BLUE
  | WILD
deriving DecidableEq

/-- Mirrors `Color.STANDARD`. -/
def Color.standard : List Color := [Color.RED, Color.YELLOW, Color.GREEN, Color.BLUE]

/-- Enumeration mirroring class `Rank` (uno.py lines 21-40). -/
inductive Rank where
  | ZERO
  | ONE
  | TWO
  | THREE
  | FOUR
  | FIVE
  | SIX
  | SEVEN
  | EIGHT
  | NINE
  | SKIP
  | REVERSE
  | DRAW_TWO
  | WILD
  | WILD_DRAW_FOUR
deriving DecidableEq

/-- Mirrors `Rank.NUMBERS`. -/
def Rank.numbers : List Rank :=
  [Rank.ZERO, Rank.ONE, Rank.TWO, Rank.THREE, Rank.FOUR, Rank.FIVE, Rank.SIX,
   Rank.SEVEN, Rank.EIGHT, Rank.NINE]

/-- Mirrors `Rank.ACTIONS`. -/
def Rank.actions : List Rank := [Rank.SKIP, Rank.REVERSE, Rank.DRAW_TWO]

/-- Mirrors `Rank.WILDS`. -/
def Rank.wilds : List Rank := [Rank.WILD, Rank.WILD_DRAW_FOUR]

/-- Mirrors `Rank.is_wild` (membership test in `Rank.WILDS`). -/
def Rank.is_wild (r : Rank) : Bool := Rank.wilds.contains r

/-- Immutable card value, mirroring class `Card` (uno.py lines 55-58). -/
structure Card where
  color : Color
  rank : Rank
deriving DecidableEq

/-- Mirrors `Card.matches` (uno.py lines 60-65).  `active_color` is the
engine's `GameState.active_color`, an `Optional[str]` in the source
(initially `None`), hence `Option Color` here; the Python comparison
`self.color == active_color` is equality of a color with that optional. -/
def Card.matches (self top_card : Card) (active_color : Option Color) : Bool :=
  if self.rank.is_wild then
    true
  else if top_card.rank.is_wild then
    some self.color == active_color || self.rank == top_card.rank
  else
    self.color == top_card.color || self.rank == top_card.rank

/-- Draw pile and discard pile, mirroring class `Deck` (uno.py lines 75-121).
Front of each deque is the head of the list. -/
structure Deck where
  draw_pile : List Card
  discard_pile : List Card
deriving DecidableEq

/-- The 108-card list built by `Deck._build` (uno.py lines 81-90), in source
order before shuffling: for each standard color one ZERO then two copies of
each of ranks 1-9, SKIP, REVERSE, DRAW_TWO; then four WILD / WILD_DRAW_FOUR
pairs. -/
def Deck.build_list : List Card :=
  (Color.standard.flatMap fun c =>
    Card.mk c Rank.ZERO ::
      ((List.range 2).flatMap fun _ =>
        (Rank.numbers.tail ++ Rank.actions).map fun r => Card.mk c r))
  ++ ((List.range 4).flatMap fun _ =>
        [Card.mk Color.WILD Rank.WILD, Card.mk Color.WILD Rank.WILD_DRAW_FOUR])

/-- Mirrors `Deck.__init__` + `Deck._build` (uno.py lines 76-92): the freshly
built card list is shuffled (`sh`) and becomes the draw pile. -/
def Deck.build (sh : List Card → List Card) : Deck :=
  { draw_pile := sh Deck.build_list, discard_pile := [] }

/-- Mirrors `Deck._reshuffle_from_discard` (uno.py lines 113-121): if the
discard pile is empty do nothing; otherwise pop the top, shuffle the rest
onto the end of the draw pile, and leave the former top as the discard
pile's sole member. -/
def Deck.reshuffle_from_discard (sh : List Card → List Card) (d : Deck) : Deck :=
  match d.discard_pile with
  | [] => d
  | top :: rest => { draw_pile := d.draw_pile ++ sh rest, discard_pile := [top] }

/-- Mirrors `Deck.draw` (uno.py lines 94-97): reshuffle first when the draw
pile is empty, then pop the front if possible. -/
def Deck.draw (sh : List Card → List Card) (d : Deck) : Option Card × Deck :=
  let d1 := if d.draw_pile.isEmpty then d.reshuffle_from_discard sh else d
  match d1.draw_pile with
  | [] => (none, d1)
  | c :: rest => (some c, { d1 with draw_pile := rest })

/-- Mirrors `Deck.discard` (uno.py lines 99-100): push to the front of the
discard pile. -/
def Deck.discard (d : Deck) (card : Card) : Deck :=
  { d with discard_pile := card :: d.discard_pile }

/-- Mirrors `Deck.top_discard` (uno.py lines 102-103).  The Python indexes
`discard_pile[0]` and raises on an empty pile (a precondition violation per
the engine's flow, which always seeds a starting discard); the default value
here is arbitrary and unreachable in engine flow. -/
def Deck.top_discard (d : Deck) : Card :=
  d.discard_pile.headD (Card.mk Color.WILD Rank.WILD)

/-- Mirrors `Deck.start_discard_non_wild` (uno.py lines 105-111), with an
explicit fuel bound for the `while True` loop (the Python loop terminates
whenever a non-wild card is reachable; fuel exhaustion returns the deck as
is).  A draw that produces no card stops the loop (in Python this state
would raise before looping). -/
def Deck.start_discard_non_wild (sh : List Card → List Card) : Nat → Deck → Deck
  | 0, d => d
  | fuel + 1, d =>
    match Deck.draw sh d with
    | (some c, d1) =>
      let d2 := d1.discard c
      if c.rank.is_wild then Deck.start_discard_non_wild sh fuel d2 else d2
    | (none, d1) => d1

/-- Hand plus the one behavioural distinction the engine makes between
player kinds: `isinstance(opponent, AggressiveAI)` (uno.py line 427).
Mirrors class `Player` (uno.py lines 126-129); the display name is dropped. -/
structure PlayerSt where
  hand : List Card
  is_ai : Bool
deriving DecidableEq

/-- Mirrors `Player.draw` (uno.py lines 131-135): loop `count` times, drawing
from the deck and appending to the hand whenever a card is produced. -/
def PlayerSt.draw (sh : List Card → List Card) : PlayerSt → Deck → Nat → PlayerSt × Deck
  | p, d, 0 => (p, d)
  | p, d, count + 1 =>
    match Deck.draw sh d with
    | (some c, d1) => PlayerSt.draw sh { p with hand := p.hand ++ [c] } d1 count
    | (none, d1) => PlayerSt.draw sh p d1 count

/-- Mirrors `Player.count_color` (uno.py lines 140-141). -/
def PlayerSt.count_color (p : PlayerSt) (color : Color) : Nat :=
  (p.hand.filter fun c => c.color == color).length

/-- Mirrors class `Move` (uno.py lines 253-274) as a tagged variant;
`chosen_color` is `Optional[str]` in the source. -/
inductive Move where
  | play (card : Card) (chosen_color : Option Color) (challenge : Bool)
  | draw
  | invalid

/-- Mirrors class `GameState` (uno.py lines 277-285). -/
structure GameState where
  deck : Deck
  players : List PlayerSt
  current_index : Nat
  direction : Int
  active_color : Option Color
  pending_draw : Nat
  no_mercy : Bool

/-- Placeholder player used only for out-of-range indexing, which the engine
never performs (Python would raise `IndexError`). -/
def noPlayer : PlayerSt := { hand := [], is_ai := false }

/-- Mirrors `GameState.current` (uno.py lines 287-288). -/
def GameState.current (st : GameState) : PlayerSt :=
  st.players.getD st.current_index noPlayer

/-- Index computed by `GameState.next_player` (uno.py lines 290-293):
`(current_index + direction) % len(players)` with Python's nonnegative `%`,
which `Int.emod` matches for a positive modulus. -/
def GameState.next_index (st : GameState) : Nat :=
  (((st.current_index : Int) + st.direction) % (st.players.length : Int)).toNat

/-- Mirrors `GameState.next_player` (uno.py lines 290-293). -/
def GameState.next_player (st : GameState) : PlayerSt :=
  st.players.getD st.next_index noPlayer

/-- Mirrors `GameState.advance_turn` (uno.py lines 295-297):
`current_index = (current_index + steps * direction) % len(players)`. -/
def GameState.advance_turn (st : GameState) (steps : Int) : GameState :=
  { st with current_index :=
      (((st.current_index : Int) + steps * st.direction) % (st.players.length : Int)).toNat }

/-- Mirrors `GameState.reverse` (uno.py lines 299-300). -/
def GameState.reverse (st : GameState) : GameState :=
  { st with direction := st.direction * -1 }

/-- Mirrors `Game._player_had_active_color_before_wdf` (uno.py lines 446-448):
`any` over the given player's hand of non-wild cards whose color equals
`state.active_color` at the moment of the call. -/
def Game.player_had_active_color_before_wdf (p : PlayerSt) (st : GameState) : Bool :=
  p.hand.any fun c => !c.rank.is_wild && some c.color == st.active_color

/-- Mirrors `Game._choose_color_auto` (uno.py lines 450-457): Python's
`max(counts.items(), key=...)` returns the first maximal entry in the dict's
insertion order RED, YELLOW, GREEN, BLUE; the nested conditionals below
select exactly that entry. -/
def Game.choose_color_auto (p : PlayerSt) : Color :=
  let r := p.count_color Color.RED
  let y := p.count_color Color.YELLOW
  let g := p.count_color Color.GREEN
  let b := p.count_color Color.BLUE
  if y ≤ r && g ≤ r && b ≤ r then Color.RED
  else if g ≤ y && b ≤ y then Color.YELLOW
  else if b ≤ g then Color.GREEN
  else Color.BLUE

/-- Mirrors `Game._play_card` (uno.py lines 395-444) acting on the player at
index `pIdx` (always `current_index` at every call site).  Note the source
order of effects: the card is removed from the hand and `active_color` is
overwritten with `chosen_color` (for a wild) BEFORE the WILD_DRAW_FOUR
branch calls `_player_had_active_color_before_wdf`, so that check reads the
post-play active color and the post-removal hand. -/
def Game.play_card (sh : List Card → List Card) (pIdx : Nat) (card : Card)
    (chosen_color : Option Color) (challenge_flag : Bool) (st : GameState) : GameState :=
  let p := st.players.getD pIdx noPlayer
  let p1 : PlayerSt := { p with hand := p.hand.erase card }
  let st1 : GameState := { st with
    players := st.players.set pIdx p1,
    deck := st.deck.discard card,
    active_color := if card.rank.is_wild then chosen_color else st.active_color }
  match card.rank with
  | Rank.SKIP => st1.advance_turn 2
  | Rank.REVERSE =>
    let st2 := st1.reverse
    if st2.players.length = 2 then st2.advance_turn 2 else st2.advance_turn 1
  | Rank.DRAW_TWO =>
    ({ st1 with pending_draw := st1.pending_draw + 2 }).advance_turn 1
  | Rank.WILD => st1.advance_turn 1
  | Rank.WILD_DRAW_FOUR =>
    let oppIdx := st1.next_index
    let opp := st1.players.getD oppIdx noPlayer
    let illegal := Game.player_had_active_color_before_wdf p1 st1
    let opponent_challenges := opp.is_ai || challenge_flag
    if opponent_challenges then
      if illegal then
        let pd := PlayerSt.draw sh p1 st1.deck 4
        ({ st1 with players := st1.players.set pIdx pd.1, deck := pd.2 }).advance_turn 1
      else
        let od := PlayerSt.draw sh opp st1.deck 6
        ({ st1 with players := st1.players.set oppIdx od.1, deck := od.2 }).advance_turn 1
    else
      ({ st1 with pending_draw := st1.pending_draw + 4 }).advance_turn 1
  | _ => st1.advance_turn 1

/-- One iteration of the `while True` loop in `Game.start` (uno.py lines
331-380), given the move the current player's `choose_move` returned.
Covers the INVALID branch (penalty draw of 1, advance 1), the DRAW branch
(absorb the pending stack, or draw 1 with the no-mercy auto-play), and the
PLAY branch (membership and match validation, then `_play_card`).  The win
check only breaks the loop and changes no state. -/
def Game.loop_step (sh : List Card → List Card) (mv : Move) (st : GameState) : GameState :=
  let current := st.current
  match mv with
  | Move.invalid =>
    let pd := PlayerSt.draw sh current st.deck 1
    ({ st with players := st.players.set st.current_index pd.1, deck := pd.2 }).advance_turn 1
  | Move.draw =>
    if 0 < st.pending_draw then
      let pd := PlayerSt.draw sh current st.deck st.pending_draw
      { st with players := st.players.set st.current_index pd.1, deck := pd.2,
                pending_draw := 0 }
    else
      match Deck.draw sh st.deck with
      | (some drawn, d1) =>
        if drawn.matches d1.top_discard st.active_color && st.no_mercy then
          let c1 : PlayerSt := { current with hand := current.hand ++ [drawn] }
          let st1 := { st with players := st.players.set st.current_index c1, deck := d1 }
          Game.play_card sh st.current_index drawn
            (if drawn.rank.is_wild then some (Game.choose_color_auto c1) else st.active_color)
            false st1
        else
          let c1 : PlayerSt := { current with hand := current.hand ++ [drawn] }
          ({ st with players := st.players.set st.current_index c1, deck := d1 }).advance_turn 1
      | (none, d1) => ({ st with deck := d1 }).advance_turn 1
  | Move.play card chosen_color challenge =>
    if card ∈ current.hand then
      if card.matches st.deck.top_discard st.active_color then
        Game.play_card sh st.current_index card
          (if card.rank.is_wild then chosen_color else st.active_color) challenge st
      else st.advance_turn 1
    else st.advance_turn 1

/-- Mirrors `Game._apply_initial_effect` (uno.py lines 384-393). -/
def Game.apply_initial_effect (start : Card) (st : GameState) : GameState :=
  if start.rank == Rank.SKIP then st.advance_turn 1
  else if start.rank == Rank.REVERSE then st.reverse
  else if start.rank == Rank.DRAW_TWO then { st with pending_draw := st.pending_draw + 2 }
  else st

/-- The dealing loop in `Game.start` (uno.py lines 318-319): each player in
order draws 7 cards. -/
def Game.deal (sh : List Card → List Card) : List PlayerSt → Deck → List PlayerSt × Deck
  | [], d => ([], d)
  | p :: ps, d =>
    let pd := PlayerSt.draw sh p d 7
    let rest := Game.deal sh ps pd.2
    (pd.1 :: rest.1, rest.2)

/-- Setup portion of `Game.start` (uno.py lines 310-329): build the deck,
create one human then `max 2 player_count - 1` AI players, deal 7 each, seed
the starting discard, set the active color from the starting card, and apply
the initial card effect.  `fuel` bounds `start_discard_non_wild`. -/
def Game.init_state (sh : List Card → List Card) (player_count : Nat)
    (no_mercy : Bool) (fuel : Nat) : GameState :=
  let n := max 2 player_count
  let deck0 := Deck.build sh
  let players0 : List PlayerSt :=
    { hand := [], is_ai := false } :: List.replicate (n - 1) { hand := [], is_ai := true }
  let dealt := Game.deal sh players0 deck0
  let deck2 := Deck.start_discard_non_wild sh fuel dealt.2
  let st : GameState := {
    deck := deck2, players := dealt.1, current_index := 0, direction := 1,
    active_color := some deck2.top_discard.color, pending_draw := 0, no_mercy := no_mercy }
  Game.apply_initial_effect deck2.top_discard st

/-- Reachable game states: any freshly set-up game, closed under one loop
iteration with any move and any shuffle function that permutes its input. -/
inductive Reachable : GameState → Prop where
  | init (sh : List Card → List Card) (hsh : ∀ l, (sh l).Perm l)
      (player_count : Nat) (no_mercy : Bool) (fuel : Nat) :
      Reachable (Game.init_state sh player_count no_mercy fuel)
  | step (sh : List Card → List Card) (hsh : ∀ l, (sh l).Perm l)
      (mv : Move) (st : GameState) :
      Reachable st → Reachable (Game.loop_step sh mv st)

/-- Multiset of all cards held by a deck (draw pile plus discard pile). -/
def Deck.cards (d : Deck) : Multiset Card :=
  (d.draw_pile : Multiset Card) + (d.discard_pile : Multiset Card)

/-- Multiset of all cards in a list of hands. -/
def hands_cards (ps : List PlayerSt) : Multiset Card :=
  (ps.map fun p => (p.hand : Multiset Card)).sum

/-- Multiset of every card in play: deck piles plus all hands. -/
def GameState.total_cards (st : GameState) : Multiset Card :=
  st.deck.cards + hands_cards st.players

/-- The boolean computed at uno.py line 426 (`illegal = self._player_had_active_color_before_wdf(player, state)`),
expanded through the state the engine has at that point: the hand has already
lost the played card (line 396) and `active_color` has already been
overwritten with the chosen color when the card is wild (line 399). -/
def Game.wdf_verdict (pIdx : Nat) (card : Card) (chosen_color : Option Color)
    (st : GameState) : Bool :=
  ((st.players.getD pIdx noPlayer).hand.erase card).any fun c =>
    !c.rank.is_wild &&
      some c.color == (if card.rank.is_wild then chosen_color else st.active_color)

/-- Seven assorted non-wild cards, used as a concrete draw pile. -/
def demo_pile : List Card :=
  [Card.mk Color.RED Rank.ONE, Card.mk Color.GREEN Rank.TWO, Card.mk Color.BLUE Rank.THREE,
   Card.mk Color.RED Rank.FOUR, Card.mk Color.YELLOW Rank.SIX, Card.mk Color.GREEN Rank.SEVEN,
   Card.mk Color.BLUE Rank.EIGHT]

/-- Concrete 2-player state with a pending stack of 6 on the human at index 0. -/
def stStack : GameState :=
  { deck := { draw_pile := demo_pile, discard_pile := [Card.mk Color.RED Rank.FIVE] },
    players := [{ hand := [Card.mk Color.RED Rank.NINE], is_ai := false },
                { hand := [Card.mk Color.YELLOW Rank.ONE], is_ai := true }],
    current_index := 0, direction := 1, active_color := some Color.RED,
    pending_draw := 6, no_mercy := true }

/-- Concrete 2-player state: active color BLUE, the human at index 0 holds a
BLUE FIVE together with a WILD_DRAW_FOUR, the AI at index 1 is next. -/
def stWdfB : GameState :=
  { deck := { draw_pile := demo_pile, discard_pile := [Card.mk Color.BLUE Rank.THREE] },
    players := [{ hand := [Card.mk Color.BLUE Rank.FIVE, Card.mk Color.WILD Rank.WILD_DRAW_FOUR],
                  is_ai := false },
                { hand := [Card.mk Color.YELLOW Rank.ONE], is_ai := true }],
    current_index := 0, direction := 1, active_color := some Color.BLUE,
    pending_draw := 0, no_mercy := true }

/-- Concrete 3-player state, direction +1, active color RED. -/
def stThree : GameState :=
  { deck := { draw_pile := demo_pile, discard_pile := [Card.mk Color.RED Rank.FIVE] },
    players := [{ hand := [Card.mk Color.RED Rank.NINE, Card.mk Color.RED Rank.REVERSE,
                           Card.mk Color.RED Rank.SKIP], is_ai := false },
                { hand := [Card.mk Color.YELLOW Rank.ONE], is_ai := true },
                { hand := [Card.mk Color.GREEN Rank.ONE], is_ai := true }],
    current_index := 0, direction := 1, active_color := some Color.RED,
    pending_draw := 0, no_mercy := true }

/-- Concrete deck with an empty draw pile and a single discard card: nothing
to recycle. -/
def deckEmptyRecycle : Deck :=
  { draw_pile := [], discard_pile := [Card.mk Color.RED Rank.FIVE] }

/-- Concrete deck with an empty draw pile and three discard cards. -/
def deckRecycle2 : Deck :=
  { draw_pile := [],
    discard_pile := [Card.mk Color.RED Rank.FIVE, Card.mk Color.GREEN Rank.TWO,
                     Card.mk Color.BLUE Rank.THREE] }

/-- C4: `Card.matches` returns true exactly when the candidate is wild, or the
top is wild and the candidate matches the active color or the top's rank, or
neither is wild and the candidate matches the top's color or rank; the
embedding is a total function with no effects. -/
theorem matches_iff_card_rule (c top : Card) (a : Color) :
    c.matches top (some a) = true ↔
      (c.rank.is_wild = true
       ∨ (top.rank.is_wild = true ∧ (c.color = a ∨ c.rank = top.rank))
       ∨ (c.rank.is_wild = false ∧ top.rank.is_wild = false
            ∧ (c.color = top.color ∨ c.rank = top.rank))) := by
  unfold Card.matches
  by_cases hc : c.rank.is_wild = true
  · simp [hc]
  · by_cases ht : top.rank.is_wild = true
    · simp [hc, ht]
    · simp only [Bool.not_eq_true] at hc ht
      simp [hc, ht]

/-- C1 (code bug evidence): in `stStack` (pending stack of 6 on the current
player, index 0 of 2, direction +1) a DRAW move makes the player draw all 6
and resets the stack, but `current_index` stays 0 — `Game.start` lines
343-347 never call `advance_turn`, so the drawer immediately moves again
instead of the turn advancing 1 step. -/
theorem draw_pending_absorb_no_advance :
    (Game.loop_step id Move.draw stStack).pending_draw = 0
    ∧ ((Game.loop_step id Move.draw stStack).players.getD 0 noPlayer).hand.length
        = (stStack.players.getD 0 noPlayer).hand.length + 6
    ∧ (Game.loop_step id Move.draw stStack).current_index = stStack.current_index := by
  decide

/-- C2 (code bug evidence): in `stWdfB` the active color before the play is
BLUE and player 0 holds a non-wild BLUE card, so by the spec's definition the
WILD_DRAW_FOUR play (choosing RED) is illegal and, when challenged, player 0
should draw 4.  The code computes the check only at line 426, after
`active_color` was overwritten with RED, so it finds no RED card, judges the
play legal, and penalises the challenger with 6 cards instead. -/
theorem wdf_check_reads_chosen_color :
    Game.player_had_active_color_before_wdf (stWdfB.players.getD 0 noPlayer) stWdfB = true
    ∧ Game.wdf_verdict 0 (Card.mk Color.WILD Rank.WILD_DRAW_FOUR) (some Color.RED) stWdfB
        = false
    ∧ ((Game.loop_step id
          (Move.play (Card.mk Color.WILD Rank.WILD_DRAW_FOUR) (some Color.RED) true)
          stWdfB).players.getD 1 noPlayer).hand.length
        = (stWdfB.players.getD 1 noPlayer).hand.length + 6
    ∧ ((Game.loop_step id
          (Move.play (Card.mk Color.WILD Rank.WILD_DRAW_FOUR) (some Color.RED) true)
          stWdfB).players.getD 0 noPlayer).hand.length = 1 := by
  decide

/-- Helper: the active color after `Game._play_card` is the chosen color for a
wild card and the previous active color otherwise. -/
theorem play_card_active (sh : List Card → List Card) (i : Nat) (c : Card)
    (col : Option Color) (f : Bool) (st : GameState) :
    (Game.play_card sh i c col f st).active_color
      = (if c.rank.is_wild then col else st.active_color) := by
  obtain ⟨cc, cr⟩ := c
  cases cr <;>
    simp [Game.play_card, GameState.advance_turn, GameState.reverse,
      Rank.is_wild, Rank.wilds, apply_ite GameState.active_color]

/-- C10: applying a play never writes the card's own color to `active_color`:
a non-wild play leaves `active_color` unchanged, and a wild play sets it to
exactly the supplied chosen color. -/
theorem play_card_active_color_frame (sh : List Card → List Card) (i : Nat) (c : Card)
    (col : Option Color) (f : Bool) (st : GameState) :
    (c.rank.is_wild = false → (Game.play_card sh i c col f st).active_color = st.active_color)
    ∧ (c.rank.is_wild = true → (Game.play_card sh i c col f st).active_color = col) := by
  refine ⟨fun h => ?_, fun h => ?_⟩ <;> rw [play_card_active, h] <;> simp

/-- Witness for C10 at concrete inputs: a RED NINE leaves the active color
RED, a WILD with chosen color GREEN sets it to GREEN. -/
theorem play_card_active_color_frame_witness :
    ((Card.mk Color.RED Rank.NINE).rank.is_wild = false
      ∧ (Game.play_card id 0 (Card.mk Color.RED Rank.NINE) none false stStack).active_color
          = stStack.active_color)
    ∧ ((Card.mk Color.WILD Rank.WILD).rank.is_wild = true
      ∧ (Game.play_card id 0 (Card.mk Color.WILD Rank.WILD) (some Color.GREEN) false
            stWdfB).active_color = some Color.GREEN) :=
  ⟨⟨by decide,
    (play_card_active_color_frame id 0 (Card.mk Color.RED Rank.NINE) none false stStack).1
      (by decide)⟩,
   ⟨by decide,
    (play_card_active_color_frame id 0 (Card.mk Color.WILD Rank.WILD) (some Color.GREEN) false
        stWdfB).2 (by decide)⟩⟩

/-- C9: with a pending stack, the engine's PLAY validation still checks only
hand membership and the matching rule; a matching in-hand card that is
neither DRAW_TWO nor WILD_DRAW_FOUR is applied through `_play_card` exactly
as usual, and `pending_draw` is left unchanged. -/
theorem play_validation_ignores_stacking (sh : List Card → List Card) (st : GameState)
    (c : Card) (col : Option Color) (f : Bool)
    (_hp : 0 < st.pending_draw)
    (hmem : c ∈ st.current.hand)
    (hmatch : c.matches st.deck.top_discard st.active_color = true)
    (h2 : c.rank ≠ Rank.DRAW_TWO) (h4 : c.rank ≠ Rank.WILD_DRAW_FOUR) :
    Game.loop_step sh (Move.play c col f) st
      = Game.play_card sh st.current_index c
          (if c.rank.is_wild then col else st.active_color) f st
    ∧ (Game.loop_step sh (Move.play c col f) st).pending_draw = st.pending_draw := by
  have h1 : Game.loop_step sh (Move.play c col f) st
      = Game.play_card sh st.current_index c
          (if c.rank.is_wild then col else st.active_color) f st := by
    simp [Game.loop_step, hmem, hmatch]
  refine ⟨h1, ?_⟩
  rw [h1]
  obtain ⟨cc, cr⟩ := c
  cases cr <;>
    simp_all [Game.play_card, GameState.advance_turn, GameState.reverse,
      apply_ite GameState.pending_draw]

/-- Witness for C9: in `stStack` (pending stack of 6) the matching RED NINE
is played normally and the stack is untouched. -/
theorem play_validation_ignores_stacking_witness :
    (0 < stStack.pending_draw
      ∧ Card.mk Color.RED Rank.NINE ∈ stStack.current.hand)
    ∧ (Game.loop_step id (Move.play (Card.mk Color.RED Rank.NINE) none false)
        stStack).pending_draw = stStack.pending_draw :=
  ⟨⟨by decide, by decide⟩,
   (play_validation_ignores_stacking id stStack (Card.mk Color.RED Rank.NINE) none false
      (by decide) (by decide) (by decide) (by decide) (by decide)).2⟩

/-- C8: from any state, a REVERSE play flips the direction and, with exactly 2
players, ends on the same `current_index` as a SKIP play would (both advance
2 steps when the starting direction is +1); with 3 or more players REVERSE
advances 1 step in the new direction while SKIP advances 2 steps in the
current direction. -/
theorem reverse_skip_parity (sh : List Card → List Card) (i : Nat) (cR cS : Card)
    (colR colS : Option Color) (fR fS : Bool) (st : GameState)
    (hR : cR.rank = Rank.REVERSE) (hS : cS.rank = Rank.SKIP) :
    (st.players.length = 2 → st.direction = 1 →
      (Game.play_card sh i cR colR fR st).current_index
        = (Game.play_card sh i cS colS fS st).current_index)
    ∧ (3 ≤ st.players.length →
      (Game.play_card sh i cR colR fR st).direction = -st.direction
      ∧ (Game.play_card sh i cR colR fR st).current_index
          = (((st.current_index : Int) + 1 * (-st.direction))
              % (st.players.length : Int)).toNat
      ∧ (Game.play_card sh i cS colS fS st).current_index
          = (((st.current_index : Int) + 2 * st.direction)
              % (st.players.length : Int)).toNat) := by
  obtain ⟨ccR, crR⟩ := cR
  obtain ⟨ccS, crS⟩ := cS
  simp only [Card.rank] at hR hS
  subst hR hS
  constructor
  · intro h2 hdir
    simp [Game.play_card, GameState.advance_turn, GameState.reverse, h2, hdir,
      Rank.is_wild, Rank.wilds]
  · intro h3
    have hne : ¬ st.players.length = 2 := by omega
    simp [Game.play_card, GameState.advance_turn, GameState.reverse, hne,
      Rank.is_wild, Rank.wilds]

/-- Witness for C8 at concrete inputs: a 2-player state where REVERSE and SKIP
land on the same index, and a 3-player state for the second clause. -/
theorem reverse_skip_parity_witness :
    ((stStack.players.length = 2 ∧ stStack.direction = 1 ∧ 3 ≤ stThree.players.length)
      ∧ (Game.play_card id 0 (Card.mk Color.RED Rank.REVERSE) none false stStack).current_index
          = (Game.play_card id 0 (Card.mk Color.RED Rank.SKIP) none false stStack).current_index)
    ∧ ((Game.play_card id 0 (Card.mk Color.RED Rank.REVERSE) none false stThree).direction
          = -stThree.direction
      ∧ (Game.play_card id 0 (Card.mk Color.RED Rank.REVERSE) none false stThree).current_index
          = (((stThree.current_index : Int) + 1 * (-stThree.direction))
              % (stThree.players.length : Int)).toNat
      ∧ (Game.play_card id 0 (Card.mk Color.RED Rank.SKIP) none false stThree).current_index
          = (((stThree.current_index : Int) + 2 * stThree.direction)
              % (stThree.players.length : Int)).toNat) :=
  ⟨⟨⟨by decide, by decide, by decide⟩,
    (reverse_skip_parity id 0 (Card.mk Color.RED Rank.REVERSE) (Card.mk Color.RED Rank.SKIP)
        none none false false stStack rfl rfl).1 (by decide) (by decide)⟩,
   (reverse_skip_parity id 0 (Card.mk Color.RED Rank.REVERSE) (Card.mk Color.RED Rank.SKIP)
        none none false false stThree rfl rfl).2 (by decide)⟩

/-- Helper: drawing `k` cards when the draw pile has at least `k` of them
takes exactly the first `k` cards of the draw pile, appending them in order. -/
theorem playerSt_draw_of_le (sh : List Card → List Card) :
    ∀ (k : Nat) (p : PlayerSt) (d : Deck), k ≤ d.draw_pile.length →
      PlayerSt.draw sh p d k
        = ({ p with hand := p.hand ++ d.draw_pile.take k },
           { d with draw_pile := d.draw_pile.drop k })
  | 0, p, d, _ => by simp [PlayerSt.draw]
  | k + 1, p, d, h => by
    cases hd : d.draw_pile with
    | nil => rw [hd] at h; simp at h
    | cons c rest =>
      have hdraw : Deck.draw sh d = (some c, { d with draw_pile := rest }) := by
        simp [Deck.draw, hd]
      have hk : k ≤ rest.length := by
        rw [hd] at h; simpa using h
      simp only [PlayerSt.draw, hdraw]
      rw [playerSt_draw_of_le sh k _ _ (by simpa using hk)]
      simp [hd]

/-- Helper: a full-supply draw grows the hand by exactly `k` cards. -/
theorem playerSt_draw_full_length (sh : List Card → List Card) (k : Nat) (p : PlayerSt)
    (d : Deck) (h : k ≤ d.draw_pile.length) :
    ((PlayerSt.draw sh p d k).1).hand.length = p.hand.length + k := by
  rw [playerSt_draw_of_le sh k p d h]
  simp [Nat.min_eq_left h]

/-- Helper: drawing appends some suffix of at most `k` cards to the hand,
whatever the deck contents. -/
theorem playerSt_draw_exists_suffix (sh : List Card → List Card) :
    ∀ (k : Nat) (p : PlayerSt) (d : Deck), ∃ new : List Card,
      (PlayerSt.draw sh p d k).1.hand = p.hand ++ new ∧ new.length ≤ k
  | 0, p, d => ⟨[], by simp [PlayerSt.draw], by simp⟩
  | k + 1, p, d => by
    rcases hdd : Deck.draw sh d with ⟨oc, d1⟩
    cases oc with
    | some c =>
      obtain ⟨new, hnew, hlen⟩ :=
        playerSt_draw_exists_suffix sh k { p with hand := p.hand ++ [c] } d1
      refine ⟨c :: new, ?_, ?_⟩
      · simp only [PlayerSt.draw, hdd, hnew]
        simp
      · simp only [List.length_cons]
        omega
    | none =>
      obtain ⟨new, hnew, hlen⟩ := playerSt_draw_exists_suffix sh k p d1
      refine ⟨new, ?_, ?_⟩
      · simp only [PlayerSt.draw, hdd, hnew]
      · omega

/-- C7: `Deck.draw` produces no card exactly when the draw pile is empty and
the discard pile holds at most one card; and `Player.draw` always appends at
most `count` cards, ending silently (it is a total function) when the deck
cannot supply one. -/
theorem draw_none_iff_exhausted (sh : List Card → List Card)
    (hsh : ∀ l, (sh l).Perm l) (d : Deck) :
    ((Deck.draw sh d).1 = none ↔ d.draw_pile = [] ∧ d.discard_pile.length ≤ 1)
    ∧ ∀ (p : PlayerSt) (k : Nat), ∃ new : List Card,
        (PlayerSt.draw sh p d k).1.hand = p.hand ++ new ∧ new.length ≤ k := by
  refine ⟨?_, fun p k => playerSt_draw_exists_suffix sh k p d⟩
  cases hdp : d.draw_pile with
  | cons c rest => simp [Deck.draw, hdp]
  | nil =>
    cases hdc : d.discard_pile with
    | nil => simp [Deck.draw, Deck.reshuffle_from_discard, hdp, hdc]
    | cons top rest =>
      have hlen : (sh rest).length = rest.length := (hsh rest).length_eq
      cases hsr : sh rest with
      | nil =>
        rw [hsr] at hlen
        simp only [List.length_nil] at hlen
        have : rest = [] := List.length_eq_zero.mp hlen.symm
        subst this
        simp [Deck.draw, Deck.reshuffle_from_discard, hdp, hdc, hsr]
      | cons c rest2 =>
        have hrlen : rest.length = rest2.length + 1 := by
          rw [← hlen, hsr]; rfl
        simp [Deck.draw, Deck.reshuffle_from_discard, hdp, hdc, hsr, hrlen]

/-- Witness for C7 at a concrete deck with nothing to recycle: the draw
produces no card and the iff instance holds. -/
theorem draw_none_iff_exhausted_witness :
    ((Deck.draw id deckEmptyRecycle).1 = none
      ↔ deckEmptyRecycle.draw_pile = [] ∧ deckEmptyRecycle.discard_pile.length ≤ 1)
    ∧ ∀ (p : PlayerSt) (k : Nat), ∃ new : List Card,
        (PlayerSt.draw id p deckEmptyRecycle k).1.hand = p.hand ++ new ∧ new.length ≤ k :=
  draw_none_iff_exhausted id (fun l => List.Perm.refl l) deckEmptyRecycle

/-- C6: a reshuffle keeps the former top of the discard pile as the discard
pile's sole member and moves exactly the remaining discard cards (as a
multiset: they are shuffled) into the draw pile; hence with an empty draw
pile and at least two discard cards, `Deck.draw` produces a card and
`top_discard` is unchanged by the call. -/
theorem reshuffle_preserves_top (sh : List Card → List Card)
    (hsh : ∀ l, (sh l).Perm l) (d : Deck) (hne : d.discard_pile ≠ []) :
    ((d.reshuffle_from_discard sh).discard_pile = d.discard_pile.take 1
      ∧ ((d.reshuffle_from_discard sh).draw_pile : Multiset Card)
          = (d.draw_pile : Multiset Card) + (d.discard_pile.tail : Multiset Card))
    ∧ (d.draw_pile = [] → 2 ≤ d.discard_pile.length →
        ((Deck.draw sh d).1.isSome = true
          ∧ (Deck.draw sh d).2.top_discard = d.top_discard)) := by
  cases hdc : d.discard_pile with
  | nil => exact absurd hdc hne
  | cons top rest =>
    constructor
    · refine ⟨by simp [Deck.reshuffle_from_discard, hdc], ?_⟩
      simp only [Deck.reshuffle_from_discard, hdc, List.tail_cons]
      rw [← Multiset.coe_add]
      exact congrArg _ (Multiset.coe_eq_coe.mpr (hsh rest))
    · intro hdp hlen
      obtain ⟨c, rest2, hsr⟩ : ∃ c rest2, sh rest = c :: rest2 := by
        have hlr : (sh rest).length = rest.length := (hsh rest).length_eq
        cases hx : sh rest with
        | nil =>
          rw [hx] at hlr
          simp only [List.length_nil] at hlr
          simp only [List.length_cons] at hlen
          omega
        | cons c r2 => exact ⟨c, r2, rfl⟩
      simp [Deck.draw, Deck.reshuffle_from_discard, hdp, hdc, hsr, Deck.top_discard]

/-- Witness for C6 at a concrete deck: empty draw pile, three discard cards;
the draw succeeds and the top discard is stable. -/
theorem reshuffle_preserves_top_witness :
    (deckRecycle2.discard_pile ≠ [] ∧ deckRecycle2.draw_pile = []
      ∧ 2 ≤ deckRecycle2.discard_pile.length)
    ∧ ((Deck.draw id deckRecycle2).1.isSome = true
        ∧ (Deck.draw id deckRecycle2).2.top_discard = deckRecycle2.top_discard) :=
  ⟨⟨by decide, rfl, by decide⟩,
   (reshuffle_preserves_top id (fun l => List.Perm.refl l) deckRecycle2
      (by decide)).2 rfl (by decide)⟩

/-- Helper: reading back the player just written by `List.set`. -/
theorem list_getD_set_self : ∀ (ps : List PlayerSt) (i : Nat) (q : PlayerSt),
    i < ps.length → (ps.set i q).getD i noPlayer = q
  | [], i, q, h => by simp at h
  | p :: ps, 0, q, _ => rfl
  | p :: ps, i + 1, q, h =>
    by simpa using list_getD_set_self ps i q (by simpa using h)

/-- Helper: `List.set` leaves every other index unchanged. -/
theorem list_getD_set_ne : ∀ (ps : List PlayerSt) (i j : Nat) (q : PlayerSt),
    i ≠ j → (ps.set i q).getD j noPlayer = ps.getD j noPlayer
  | [], _, _, _, _ => by simp
  | p :: ps, 0, 0, q, h => absurd rfl h
  | p :: ps, 0, j + 1, q, h => by simp
  | p :: ps, i + 1, 0, q, h => rfl
  | p :: ps, i + 1, j + 1, q, h =>
    by simpa using list_getD_set_ne ps i j q (by omega)

/-- Helper: the next-player index is in range whenever there are players. -/
theorem next_index_lt (st : GameState) (h : 0 < st.players.length) :
    st.next_index < st.players.length := by
  have h0 : (0 : Int) < (st.players.length : Int) := by exact_mod_cast h
  have h1 : 0 ≤ ((st.current_index : Int) + st.direction) % (st.players.length : Int) :=
    Int.emod_nonneg _ h0.ne'
  have h2 := Int.emod_lt_of_pos ((st.current_index : Int) + st.direction) h0
  simp only [GameState.next_index]
  omega

/-- C3: outcomes of a WILD_DRAW_FOUR play with a full-enough draw pile: when a
challenge is raised (next player is an AI or the move carries the challenge
flag) and the engine's verdict is illegal, the playing player draws exactly 4
on top of their post-play hand and the stack is untouched; verdict legal, the
challenger draws exactly 6; no challenge, `pending_draw` grows by 4; and in
every case the turn advances exactly 1 step in the current direction. -/
theorem wdf_outcomes (sh : List Card → List Card) (i : Nat) (c : Card)
    (col : Option Color) (f : Bool) (st : GameState)
    (hc : c.rank = Rank.WILD_DRAW_FOUR)
    (hi : i < st.players.length)
    (hnei : st.next_index ≠ i)
    (hsupply : 6 ≤ st.deck.draw_pile.length) :
    ((st.next_player.is_ai || f) = true →
      (Game.wdf_verdict i c col st = true →
        ((Game.play_card sh i c col f st).players.getD i noPlayer).hand.length
            = ((st.players.getD i noPlayer).hand.erase c).length + 4
        ∧ (Game.play_card sh i c col f st).pending_draw = st.pending_draw)
      ∧ (Game.wdf_verdict i c col st = false →
        ((Game.play_card sh i c col f st).players.getD st.next_index noPlayer).hand.length
            = (st.players.getD st.next_index noPlayer).hand.length + 6
        ∧ (Game.play_card sh i c col f st).pending_draw = st.pending_draw))
    ∧ ((st.next_player.is_ai || f) = false →
        (Game.play_card sh i c col f st).pending_draw = st.pending_draw + 4)
    ∧ (Game.play_card sh i c col f st).current_index
        = (((st.current_index : Int) + 1 * st.direction)
            % (st.players.length : Int)).toNat := by
  obtain ⟨cc, cr⟩ := c
  simp only [Card.rank] at hc
  subst hc
  have h4 : 4 ≤ st.deck.draw_pile.length := by omega
  have h6 : 6 ≤ st.deck.draw_pile.length := hsupply
  have hine : i ≠ st.next_index := fun h => hnei h.symm
  have hnlt : st.next_index < st.players.length :=
    next_index_lt st (by omega)
  simp only [Game.play_card, Game.wdf_verdict, Game.player_had_active_color_before_wdf,
    GameState.next_player, GameState.next_index, GameState.advance_turn,
    List.length_set, Rank.is_wild, Rank.wilds] at *
  constructor
  · intro hch
    constructor
    · intro hv
      simp_all [list_getD_set_ne st.players i _ _ hine, list_getD_set_self,
        List.length_set, hi, playerSt_draw_full_length, Deck.discard, h4]
    · intro hv
      simp_all [list_getD_set_ne st.players i _ _ hine, list_getD_set_self,
        List.length_set, hnlt, playerSt_draw_full_length, Deck.discard, h6]
      split
      · rename_i hcond
        exfalso
        obtain ⟨x, hxm, hx⟩ := hcond
        exact (hv x hxm hx.1.1 hx.1.2) hx.2
      · simp_all [list_getD_set_self, List.length_set, hnlt,
          playerSt_draw_full_length, Deck.discard, h6]
  · constructor
    · intro hch
      simp_all [list_getD_set_ne st.players i _ _ hine]
    · simp_all [list_getD_set_ne st.players i _ _ hine, apply_ite GameState.current_index,
        List.length_set]

/-- Witness for C3 at a concrete input: in `stWdfB` the human at index 0 plays
WILD_DRAW_FOUR choosing RED with the challenge flag set; all hypotheses hold
and the turn advances exactly 1 step. -/
theorem wdf_outcomes_witness :
    ((0 : Nat) < stWdfB.players.length ∧ stWdfB.next_index ≠ 0
      ∧ 6 ≤ stWdfB.deck.draw_pile.length)
    ∧ (Game.play_card id 0 (Card.mk Color.WILD Rank.WILD_DRAW_FOUR) (some Color.RED) true
          stWdfB).current_index
        = (((stWdfB.current_index : Int) + 1 * stWdfB.direction)
            % (stWdfB.players.length : Int)).toNat :=
  ⟨⟨by decide, by decide, by decide⟩,
   (wdf_outcomes id 0 (Card.mk Color.WILD Rank.WILD_DRAW_FOUR) (some Color.RED) true stWdfB
      rfl (by decide) (by decide) (by decide)).2.2⟩

/-- Helper: discarding a card adds exactly that card to the deck's multiset. -/
theorem deck_discard_cards (d : Deck) (c : Card) :
    (d.discard c).cards = c ::ₘ d.cards := by
  simp only [Deck.discard, Deck.cards, ← Multiset.cons_coe, Multiset.add_cons]

/-- Helper: a reshuffle never changes the deck's multiset of cards. -/
theorem deck_reshuffle_cards (sh : List Card → List Card) (hsh : ∀ l, (sh l).Perm l)
    (d : Deck) : (d.reshuffle_from_discard sh).cards = d.cards := by
  cases hdc : d.discard_pile with
  | nil => simp [Deck.reshuffle_from_discard, hdc]
  | cons top rest =>
    have h1 : ((sh rest : List Card) : Multiset Card) = (rest : Multiset Card) :=
      Multiset.coe_eq_coe.mpr (hsh rest)
    simp only [Deck.reshuffle_from_discard, hdc, Deck.cards, ← Multiset.coe_add, h1,
      ← Multiset.cons_coe, Multiset.coe_singleton]
    simp only [← Multiset.singleton_add, Multiset.add_cons]
    abel

/-- Helper: drawing a card just moves it out of the deck's multiset. -/
theorem deck_draw_cards (sh : List Card → List Card) (hsh : ∀ l, (sh l).Perm l)
    (d : Deck) :
    (Deck.draw sh d).2.cards + ((Deck.draw sh d).1.toList : Multiset Card) = d.cards := by
  simp only [Deck.draw]
  set d1 := if d.draw_pile.isEmpty then d.reshuffle_from_discard sh else d with hd1def
  have hd1 : d1.cards = d.cards := by
    rw [hd1def]
    split
    · exact deck_reshuffle_cards sh hsh d
    · rfl
  cases hdp : d1.draw_pile with
  | nil => simpa using hd1
  | cons c rest =>
    simp only [hdp]
    rw [← hd1]
    simp only [Deck.cards, hdp, ← Multiset.cons_coe, Multiset.coe_singleton,
      Option.toList, ← Multiset.singleton_add, Multiset.add_cons]
    abel

/-- Helper: `Player.draw` moves cards from the deck to the hand, preserving
the combined multiset. -/
theorem playerSt_draw_cards (sh : List Card → List Card) (hsh : ∀ l, (sh l).Perm l) :
    ∀ (k : Nat) (p : PlayerSt) (d : Deck),
      ((PlayerSt.draw sh p d k).1.hand : Multiset Card) + (PlayerSt.draw sh p d k).2.cards
        = (p.hand : Multiset Card) + d.cards
  | 0, p, d => by simp [PlayerSt.draw]
  | k + 1, p, d => by
    have hd := deck_draw_cards sh hsh d
    rcases hdd : Deck.draw sh d with ⟨oc, d2⟩
    rw [hdd] at hd
    cases oc with
    | some c =>
      simp only [PlayerSt.draw, hdd]
      rw [playerSt_draw_cards sh hsh k { p with hand := p.hand ++ [c] } d2]
      simp only [Option.toList] at hd
      rw [← hd]
      simp only [← Multiset.coe_add, Multiset.coe_singleton]
      abel
    | none =>
      simp only [PlayerSt.draw, hdd]
      rw [playerSt_draw_cards sh hsh k p d2]
      simp only [Option.toList, Multiset.coe_nil, add_zero] at hd
      rw [hd]

/-- Helper: `hands_cards` over a cons. -/
theorem hands_cards_cons (p : PlayerSt) (ps : List PlayerSt) :
    hands_cards (p :: ps) = (p.hand : Multiset Card) + hands_cards ps := by
  simp [hands_cards]

/-- Helper: replacing one player's hand exchanges exactly that hand in the
combined multiset. -/
theorem hands_cards_set : ∀ (ps : List PlayerSt) (i : Nat) (q : PlayerSt),
    i < ps.length →
    hands_cards (ps.set i q) + ((ps.getD i noPlayer).hand : Multiset Card)
      = hands_cards ps + (q.hand : Multiset Card)
  | [], i, q, h => by simp at h
  | p :: ps, 0, q, _ => by
    simp only [List.set, List.getD_cons_zero, hands_cards_cons]
    abel
  | p :: ps, i + 1, q, h => by
    simp only [List.set, List.getD_cons_succ, hands_cards_cons]
    have ih := hands_cards_set ps i q (by simpa using h)
    rw [add_assoc, ih, ← add_assoc]

/-- Helper: a nonnegative Python-style modulus is below the player count. -/
theorem emod_toNat_lt (a : Int) (n : Nat) (h : 0 < n) : (a % (n : Int)).toNat < n := by
  have h0 : (0 : Int) < (n : Int) := by exact_mod_cast h
  have h1 : 0 ≤ a % (n : Int) := Int.emod_nonneg _ h0.ne'
  have h2 : a % (n : Int) < (n : Int) := Int.emod_lt_of_pos _ h0
  omega

/-- Helper: a penalty draw into the player at index `j` conserves the combined
multiset of deck cards and hand cards. -/
theorem cards_set_draw (sh : List Card → List Card) (hsh : ∀ l, (sh l).Perm l)
    (ps : List PlayerSt) (dk : Deck) (j : Nat) (q : PlayerSt)
    (hq : ps.getD j noPlayer = q) (hj : j < ps.length) (k : Nat) :
    (PlayerSt.draw sh q dk k).2.cards
      + hands_cards (ps.set j (PlayerSt.draw sh q dk k).1)
      = dk.cards + hands_cards ps := by
  have hdraw := playerSt_draw_cards sh hsh k q dk
  have hset := hands_cards_set ps j (PlayerSt.draw sh q dk k).1 hj
  rw [hq] at hset
  apply add_right_cancel
  calc (PlayerSt.draw sh q dk k).2.cards
        + hands_cards (ps.set j (PlayerSt.draw sh q dk k).1)
        + (q.hand : Multiset Card)
      = (PlayerSt.draw sh q dk k).2.cards
        + (hands_cards (ps.set j (PlayerSt.draw sh q dk k).1) + (q.hand : Multiset Card)) :=
        add_assoc _ _ _
    _ = (PlayerSt.draw sh q dk k).2.cards
        + (hands_cards ps + ((PlayerSt.draw sh q dk k).1.hand : Multiset Card)) := by
        rw [hset]
    _ = ((PlayerSt.draw sh q dk k).1.hand : Multiset Card)
        + (PlayerSt.draw sh q dk k).2.cards + hands_cards ps := by abel
    _ = (q.hand : Multiset Card) + dk.cards + hands_cards ps := by rw [hdraw]
    _ = dk.cards + hands_cards ps + (q.hand : Multiset Card) := by abel

/-- Helper: removing a held card from a hand and pushing it onto the discard
pile conserves the combined multiset. -/
theorem cards_set_erase (ps : List PlayerSt) (dk : Deck) (j : Nat)
    (hj : j < ps.length) (c : Card) (hc : c ∈ (ps.getD j noPlayer).hand) :
    (dk.discard c).cards
      + hands_cards (ps.set j
          { ps.getD j noPlayer with hand := (ps.getD j noPlayer).hand.erase c })
      = dk.cards + hands_cards ps := by
  have hset := hands_cards_set ps j
    { ps.getD j noPlayer with hand := (ps.getD j noPlayer).hand.erase c } hj
  have herase : c ::ₘ (((ps.getD j noPlayer).hand.erase c : List Card) : Multiset Card)
      = ((ps.getD j noPlayer).hand : Multiset Card) := by
    rw [← Multiset.coe_erase]
    exact Multiset.cons_erase (Multiset.mem_coe.mpr hc)
  rw [deck_discard_cards]
  apply add_right_cancel
  calc c ::ₘ dk.cards
        + hands_cards (ps.set j
            { ps.getD j noPlayer with hand := (ps.getD j noPlayer).hand.erase c })
        + ((ps.getD j noPlayer).hand : Multiset Card)
      = c ::ₘ dk.cards
        + (hands_cards ps
            + (((ps.getD j noPlayer).hand.erase c : List Card) : Multiset Card)) := by
        rw [add_assoc, hset]
    _ = dk.cards + hands_cards ps
        + (c ::ₘ (((ps.getD j noPlayer).hand.erase c : List Card) : Multiset Card)) := by
        simp only [← Multiset.singleton_add]
        abel
    _ = dk.cards + hands_cards ps + ((ps.getD j noPlayer).hand : Multiset Card) := by
        rw [herase]

/-- Helper: appending a card just drawn from the deck to the hand at index `j`
conserves the combined multiset. -/
theorem cards_set_append (ps : List PlayerSt) (j : Nat) (hj : j < ps.length)
    (c : Card) (d2 dk : Deck) (hd : d2.cards + ({c} : Multiset Card) = dk.cards) :
    d2.cards
      + hands_cards (ps.set j
          { ps.getD j noPlayer with hand := (ps.getD j noPlayer).hand ++ [c] })
      = dk.cards + hands_cards ps := by
  have hset := hands_cards_set ps j
    { ps.getD j noPlayer with hand := (ps.getD j noPlayer).hand ++ [c] } hj
  apply add_right_cancel
  calc d2.cards
        + hands_cards (ps.set j
            { ps.getD j noPlayer with hand := (ps.getD j noPlayer).hand ++ [c] })
        + ((ps.getD j noPlayer).hand : Multiset Card)
      = d2.cards
        + (hands_cards ps
            + (((ps.getD j noPlayer).hand ++ [c] : List Card) : Multiset Card)) := by
        rw [add_assoc, hset]
    _ = d2.cards + ({c} : Multiset Card) + hands_cards ps
        + ((ps.getD j noPlayer).hand : Multiset Card) := by
        simp only [← Multiset.coe_add, Multiset.coe_singleton]
        abel
    _ = dk.cards + hands_cards ps + ((ps.getD j noPlayer).hand : Multiset Card) := by
        rw [hd]

/-- Helper: the wild-rank test on WILD_DRAW_FOUR evaluates to true, so the
active-color conditional collapses to the chosen color. -/
theorem wdf_active_if (col a : Option Color) :
    (if Rank.WILD_DRAW_FOUR.is_wild = true then col else a) = col := rfl

/-- Helper: `_play_card` conserves the combined multiset of deck and hand
cards whenever the played card is actually in the acting player's hand. -/
theorem play_card_total (sh : List Card → List Card) (hsh : ∀ l, (sh l).Perm l)
    (i : Nat) (c : Card) (col : Option Color) (f : Bool) (st : GameState)
    (hi : i < st.players.length)
    (hmem : c ∈ (st.players.getD i noPlayer).hand) :
    (Game.play_card sh i c col f st).total_cards = st.total_cards := by
  obtain ⟨cc, cr⟩ := c
  have hbase := cards_set_erase st.players st.deck i hi (Card.mk cc cr) hmem
  cases cr <;>
    simp only [Game.play_card, GameState.total_cards, GameState.advance_turn,
      GameState.reverse, GameState.next_index, List.length_set, wdf_active_if] <;>
    try exact hbase
  · split <;> exact hbase
  · split
    · split
      · exact (cards_set_draw sh hsh _ _ i _
          (list_getD_set_self st.players i _ hi)
          (by simp [List.length_set, hi]) 4).trans hbase
      · refine (cards_set_draw sh hsh _ _ _ _ rfl ?_ 6).trans hbase
        simp only [List.length_set]
        exact emod_toNat_lt _ _ (by omega)
    · exact hbase

/-- Helper: one engine loop iteration conserves the combined multiset of deck
and hand cards, for any move and any permutation the shuffle may produce. -/
theorem loop_step_total (sh : List Card → List Card) (hsh : ∀ l, (sh l).Perm l)
    (mv : Move) (st : GameState) (hcur : st.current_index < st.players.length) :
    (Game.loop_step sh mv st).total_cards = st.total_cards := by
  cases mv with
  | invalid =>
    simp only [Game.loop_step, GameState.current, GameState.total_cards,
      GameState.advance_turn, List.length_set]
    exact cards_set_draw sh hsh st.players st.deck st.current_index _ rfl hcur 1
  | draw =>
    simp only [Game.loop_step, GameState.current]
    split
    · simp only [GameState.total_cards]
      exact cards_set_draw sh hsh st.players st.deck st.current_index _ rfl hcur
        st.pending_draw
    · have hd := deck_draw_cards sh hsh st.deck
      rcases hdd : Deck.draw sh st.deck with ⟨oc, d1⟩
      rw [hdd] at hd
      cases oc with
      | none =>
        simp only [hdd, GameState.total_cards, GameState.advance_turn]
        simp only [Option.toList, Multiset.coe_nil, add_zero] at hd
        rw [hd]
      | some drawn =>
        simp only [hdd]
        have hd1 : d1.cards + ({drawn} : Multiset Card) = st.deck.cards := by
          simpa [Option.toList, Multiset.coe_singleton] using hd
        split
        · have hi1 : st.current_index < (st.players.set st.current_index
              { st.players.getD st.current_index noPlayer with
                hand := (st.players.getD st.current_index noPlayer).hand ++ [drawn] }).length := by
            simpa [List.length_set] using hcur
          have hmem1 : drawn ∈ ((st.players.set st.current_index
              { st.players.getD st.current_index noPlayer with
                hand := (st.players.getD st.current_index noPlayer).hand ++ [drawn] }).getD
                st.current_index noPlayer).hand := by
            rw [list_getD_set_self _ _ _ hcur]
            exact List.mem_append_right _ (List.mem_singleton_self drawn)
          refine (play_card_total sh hsh _ drawn _ false _ hi1 hmem1).trans ?_
          simp only [GameState.total_cards]
          exact cards_set_append st.players st.current_index hcur drawn d1 st.deck hd1
        · simp only [GameState.total_cards, GameState.advance_turn]
          exact cards_set_append st.players st.current_index hcur drawn d1 st.deck hd1
  | play card chosen_color challenge =>
    simp only [Game.loop_step, GameState.current]
    split
    · split
      · rename_i hmem2 hmatch2
        exact play_card_total sh hsh st.current_index card _ challenge st hcur hmem2
      · rfl
    · rfl

/-- Helper: dealing conserves the combined multiset of hands and deck cards. -/
theorem deal_cards (sh : List Card → List Card) (hsh : ∀ l, (sh l).Perm l) :
    ∀ (ps : List PlayerSt) (d : Deck),
      hands_cards (Game.deal sh ps d).1 + (Game.deal sh ps d).2.cards
        = hands_cards ps + d.cards
  | [], d => by simp [Game.deal, hands_cards]
  | p :: ps, d => by
    simp only [Game.deal, hands_cards_cons]
    have h1 := playerSt_draw_cards sh hsh 7 p d
    have h2 := deal_cards sh hsh ps (PlayerSt.draw sh p d 7).2
    calc ((PlayerSt.draw sh p d 7).1.hand : Multiset Card)
          + hands_cards (Game.deal sh ps (PlayerSt.draw sh p d 7).2).1
          + (Game.deal sh ps (PlayerSt.draw sh p d 7).2).2.cards
        = ((PlayerSt.draw sh p d 7).1.hand : Multiset Card)
          + (hands_cards ps + (PlayerSt.draw sh p d 7).2.cards) := by
          rw [add_assoc, h2]
      _ = ((PlayerSt.draw sh p d 7).1.hand : Multiset Card)
          + (PlayerSt.draw sh p d 7).2.cards + hands_cards ps := by abel
      _ = (p.hand : Multiset Card) + d.cards + hands_cards ps := by rw [h1]
      _ = (p.hand : Multiset Card) + hands_cards ps + d.cards := by abel

/-- Helper: dealing does not change the number of players. -/
theorem deal_length (sh : List Card → List Card) :
    ∀ (ps : List PlayerSt) (d : Deck), (Game.deal sh ps d).1.length = ps.length
  | [], _ => rfl
  | p :: ps, d => by
    simp only [Game.deal, List.length_cons]
    rw [deal_length sh ps]

/-- Helper: seeding the starting discard conserves the deck's multiset. -/
theorem start_discard_cards (sh : List Card → List Card) (hsh : ∀ l, (sh l).Perm l) :
    ∀ (fuel : Nat) (d : Deck),
      (Deck.start_discard_non_wild sh fuel d).cards = d.cards
  | 0, _ => rfl
  | fuel + 1, d => by
    have hd := deck_draw_cards sh hsh d
    rcases hdd : Deck.draw sh d with ⟨oc, d1⟩
    rw [hdd] at hd
    cases oc with
    | some c =>
      have hstep : (d1.discard c).cards = d.cards := by
        rw [deck_discard_cards, ← hd]
        simp only [Option.toList, Multiset.coe_singleton, ← Multiset.singleton_add]
        abel
      simp only [Deck.start_discard_non_wild, hdd]
      split
      · rw [start_discard_cards sh hsh fuel, hstep]
      · exact hstep
    | none =>
      simp only [Deck.start_discard_non_wild, hdd]
      simpa [Option.toList] using hd

/-- Helper: the initial-card effect changes no cards. -/
theorem apply_initial_effect_total (c : Card) (st : GameState) :
    (Game.apply_initial_effect c st).total_cards = st.total_cards := by
  simp only [Game.apply_initial_effect]
  repeat' split
  all_goals rfl

/-- Helper: a freshly set-up game holds exactly the built 108-card multiset. -/
theorem init_total (sh : List Card → List Card) (hsh : ∀ l, (sh l).Perm l)
    (pc : Nat) (nm : Bool) (fuel : Nat) :
    (Game.init_state sh pc nm fuel).total_cards = (Deck.build_list : Multiset Card) := by
  unfold Game.init_state
  rw [apply_initial_effect_total]
  simp only [GameState.total_cards]
  rw [start_discard_cards sh hsh]
  have hdeal := deal_cards sh hsh
    ({ hand := [], is_ai := false }
      :: List.replicate (max 2 pc - 1) { hand := [], is_ai := true })
    (Deck.build sh)
  have hzero : hands_cards
      ({ hand := [], is_ai := false }
        :: List.replicate (max 2 pc - 1) { hand := [], is_ai := true })
      = 0 := by
    simp [hands_cards, List.map_replicate, List.sum_replicate]
  have hbuild : (Deck.build sh).cards = (Deck.build_list : Multiset Card) := by
    simp only [Deck.build, Deck.cards, Multiset.coe_nil, add_zero]
    exact Multiset.coe_eq_coe.mpr (hsh Deck.build_list)
  rw [hzero, hbuild, zero_add] at hdeal
  calc (Game.deal sh _ (Deck.build sh)).2.cards
        + hands_cards (Game.deal sh _ (Deck.build sh)).1
      = hands_cards (Game.deal sh _ (Deck.build sh)).1
        + (Game.deal sh _ (Deck.build sh)).2.cards := by abel
    _ = (Deck.build_list : Multiset Card) := hdeal

/-- Helper: `_play_card` always leaves the turn pointer in range. -/
theorem play_card_index (sh : List Card → List Card) (i : Nat) (c : Card)
    (col : Option Color) (f : Bool) (st : GameState) (h : 0 < st.players.length) :
    (Game.play_card sh i c col f st).current_index
      < (Game.play_card sh i c col f st).players.length := by
  obtain ⟨cc, cr⟩ := c
  cases cr <;>
    simp only [Game.play_card, GameState.advance_turn, GameState.reverse,
      GameState.next_index, List.length_set, wdf_active_if] <;>
    (repeat' split) <;>
    ((try simp only [List.length_set]); exact emod_toNat_lt _ _ h)

/-- Helper: a loop iteration keeps the turn pointer in range. -/
theorem loop_step_index (sh : List Card → List Card) (mv : Move) (st : GameState)
    (h : st.current_index < st.players.length) :
    (Game.loop_step sh mv st).current_index
      < (Game.loop_step sh mv st).players.length := by
  have h0 : 0 < st.players.length := by omega
  cases mv with
  | invalid =>
    simp only [Game.loop_step, GameState.current, GameState.advance_turn, List.length_set]
    exact emod_toNat_lt _ _ h0
  | draw =>
    simp only [Game.loop_step, GameState.current]
    split
    · simpa [List.length_set] using h
    · rcases hdd : Deck.draw sh st.deck with ⟨oc, d1⟩
      cases oc with
      | none =>
        simp only [hdd, GameState.advance_turn, List.length_set]
        exact emod_toNat_lt _ _ h0
      | some drawn =>
        simp only [hdd]
        split
        · apply play_card_index
          simpa [List.length_set] using h0
        · simp only [GameState.advance_turn, List.length_set]
          exact emod_toNat_lt _ _ h0
  | play card ccol chal =>
    simp only [Game.loop_step, GameState.current]
    split
    · split
      · exact play_card_index sh st.current_index card _ chal st h0
      · simp only [GameState.advance_turn]
        exact emod_toNat_lt _ _ h0
    · simp only [GameState.advance_turn]
      exact emod_toNat_lt _ _ h0

/-- Helper: the initial-card effect keeps the turn pointer in range. -/
theorem apply_initial_effect_index (c : Card) (st : GameState)
    (h : st.current_index < st.players.length) :
    (Game.apply_initial_effect c st).current_index
      < (Game.apply_initial_effect c st).players.length := by
  have h0 : 0 < st.players.length := by omega
  simp only [Game.apply_initial_effect]
  repeat' split
  all_goals
    first
      | (simp only [GameState.advance_turn]; exact emod_toNat_lt _ _ h0)
      | (simp only [GameState.reverse]; exact h)
      | exact h

/-- Helper: a freshly set-up game has its turn pointer in range. -/
theorem init_state_index (sh : List Card → List Card) (pc : Nat) (nm : Bool)
    (fuel : Nat) :
    (Game.init_state sh pc nm fuel).current_index
      < (Game.init_state sh pc nm fuel).players.length := by
  unfold Game.init_state
  apply apply_initial_effect_index
  show (0 : Nat) < _
  rw [deal_length sh]
  simp

/-- Helper: every reachable state holds the full built multiset and keeps its
turn pointer in range. -/
theorem reachable_inv (st : GameState) (h : Reachable st) :
    st.total_cards = (Deck.build_list : Multiset Card)
      ∧ st.current_index < st.players.length := by
  induction h with
  | init sh hsh pc nm fuel =>
    exact ⟨init_total sh hsh pc nm fuel, init_state_index sh pc nm fuel⟩
  | step sh hsh mv st1 _ ih =>
    exact ⟨(loop_step_total sh hsh mv st1 ih.2).trans ih.1,
      loop_step_index sh mv st1 ih.2⟩

/-- C5: for every reachable game state, the multiset union of draw pile,
discard pile, and all player hands equals the 108-card deck built at game
start (per standard color one 0, two each of 1-9, SKIP, REVERSE, DRAW_TWO,
plus 4 WILD and 4 WILD_DRAW_FOUR, as `Deck.build_list` constructs); no
operation creates or destroys a card. -/
theorem conservation_reachable (st : GameState) (h : Reachable st) :
    st.total_cards = (Deck.build_list : Multiset Card)
    ∧ Deck.build_list.length = 108 :=
  ⟨(reachable_inv st h).1, by decide⟩

/-- Witness for C5: the concrete 2-player initial state with the identity
shuffle holds exactly the built 108-card multiset. -/
theorem conservation_reachable_witness :
    (Game.init_state id 2 true 1).total_cards = (Deck.build_list : Multiset Card)
    ∧ Deck.build_list.length = 108 :=
  conservation_reachable _ (Reachable.init id (fun l => List.Perm.refl l) 2 true 1)

/-- C3 (counterexample): in `stWdfB` the play of WILD_DRAW_FOUR choosing RED
is illegal in the spec's sense — the player held a non-wild card of the
pre-play active color BLUE — and a challenge is raised, yet the playing
player does not draw 4 (their hand stays at the post-play size); instead the
challenger draws 6, because the engine's check runs only after `active_color`
was overwritten with the chosen color.  This refutes the claim as stated. -/
theorem wdf_outcomes_counterexample :
    Game.player_had_active_color_before_wdf (stWdfB.players.getD 0 noPlayer) stWdfB = true
    ∧ (stWdfB.next_player.is_ai || true) = true
    ∧ ((Game.play_card id 0 (Card.mk Color.WILD Rank.WILD_DRAW_FOUR) (some Color.RED) true
          stWdfB).players.getD 0 noPlayer).hand.length
        ≠ ((stWdfB.players.getD 0 noPlayer).hand.erase
            (Card.mk Color.WILD Rank.WILD_DRAW_FOUR)).length + 4
    ∧ ((Game.play_card id 0 (Card.mk Color.WILD Rank.WILD_DRAW_FOUR) (some Color.RED) true
          stWdfB).players.getD 1 noPlayer).hand.length
        = (stWdfB.players.getD 1 noPlayer).hand.length + 6 := by
  decide
